import Mathlib

/-!
Verification development for the cli_messanger terminal chat client.

The definitions below are a shallow embedding of the Go sources:
  * `controllers/network_client.go` — poll parsing, echo dedup, poll loop
    (backoff / connectivity status), cursor management;
  * `views/chat_view.go` — the render-buffer model (committed text,
    in-flight animation slots, generation counter) and its operations.

Go maps are modelled as association lists with distinct keys (for the
slot map) or as `Finset String` (for the sent-id set); Go's `time.Duration`
backoff values are modelled in whole seconds as `Nat`; strings are Lean
`String`s (all characters relevant to the claims are ASCII, where Go's
byte indexing and Lean's character indexing agree).
-/

namespace CliMessanger

/-- A parsed poll entry, mirroring `pollMessage` in `network_client.go`
(the unused `Timestamp` field is carried as the raw JSON text). -/
structure PollMsg where
  username  : String
  content   : String
  color     : String
  id        : String
  timestamp : String := ""
deriving DecidableEq, Repr

/-- A JSON value as far as `parsePollMessages` distinguishes them:
`json.Unmarshal` into a string field succeeds only on a JSON string;
on anything else it fails and leaves the field at its zero value `""`. -/
inductive JVal where
  | jstr (s : String)
  | jother
deriving DecidableEq, Repr

/-- One raw poll entry: the key/value pairs of a JSON object
(`map[string]json.RawMessage` in Go; keys are distinct). -/
abbrev RawEntry := List (String × JVal)

/-- Definition `knownPollKeys` from `network_client.go`: the reserved keys of a poll
entry; every other key is taken to be the author name. -/
def knownPollKeys (k : String) : Bool :=
  k = "color" || k = "id" || k = "timestamp"

/-- Look up key `k` in a raw entry and unmarshal its value into a string
field: a JSON string yields its contents, anything else leaves `""`. -/
def lookupStr (raw : RawEntry) (k : String) : String :=
  match raw.find? (fun kv => kv.1 = k) with
  | some (_, JVal.jstr s) => s
  | _ => ""

/-- The `for key, val := range raw` loop with `break`: pick the first
non-reserved key as the author and unmarshal its value as the body. -/
def firstUnknownKey (raw : RawEntry) : Option (String × JVal) :=
  raw.find? (fun kv => !knownPollKeys kv.1)

/-- Build a `PollMsg` from one raw entry, as the body of the loop in
`parsePollMessages` does (before the malformed-entry check). -/
def parseEntry (raw : RawEntry) : PollMsg :=
  let color := lookupStr raw "color"
  let id := lookupStr raw "id"
  let ts := lookupStr raw "timestamp"
  match firstUnknownKey raw with
  | some (k, JVal.jstr s) =>
      { username := k, content := s, color := color, id := id, timestamp := ts }
  | some (k, JVal.jother) =>
      { username := k, content := "", color := color, id := id, timestamp := ts }
  | none =>
      { username := "", content := "", color := color, id := id, timestamp := ts }

/-- The malformed-entry check of `parsePollMessages`:
`msg.Username == "" || msg.Content == "" || msg.ID == ""` means skip. -/
def entryMalformed (m : PollMsg) : Bool :=
  m.username = "" || m.content = "" || m.id = ""

/-- Function `parsePollMessages`: the input is the result of unmarshalling the
response body into a JSON array (`none` = the body is not a parseable
array, in which case the whole call errors); otherwise each entry is
parsed and malformed entries are skipped individually. -/
def parsePollMessages (body : Option (List RawEntry)) : Except String (List PollMsg) :=
  match body with
  | none => .error "parse poll array"
  | some rawList =>
      .ok (rawList.filterMap (fun raw =>
        let msg := parseEntry raw
        if entryMalformed msg then none else some msg))

/-- Function `handleIncoming`: if the entry's id is in `sentIDs` it is removed and
the entry discarded (no `onMessage`); otherwise the message is delivered
(`some` = one `onMessage(username, content, color)` invocation). -/
def handleIncoming (sentIDs : Finset String) (msg : PollMsg) :
    Finset String × Option PollMsg :=
  if msg.id ∈ sentIDs then (sentIDs.erase msg.id, none)
  else (sentIDs, some msg)

/-- The dispatch loop of `pollLoop` over one poll batch: every entry goes
through `handleIncoming` in order; the delivered messages are collected. -/
def handleBatch (sentIDs : Finset String) : List PollMsg → Finset String × List PollMsg
  | [] => (sentIDs, [])
  | m :: rest =>
      let step := handleIncoming sentIDs m
      let restOut := handleBatch step.1 rest
      (restOut.1, step.2.toList ++ restOut.2)

/-- Function `sendAsync`, success path: on HTTP 200/201 with a decodable body whose
`id` is non-empty, the assigned id is registered in `sentIDs`.
`assignedID = none` models every other outcome (error, empty id, non-2xx). -/
def sendAsyncRegister (sentIDs : Finset String) (assignedID : Option String) :
    Finset String :=
  match assignedID with
  | some i => if i = "" then sentIDs else insert i sentIDs
  | none => sentIDs

/-- The response classes `poll` distinguishes (`network_client.go:327`):
204, 401, transport/unexpected-status failure, and 200 with a body
(`okBody none` = a body that is not a parseable JSON array). -/
inductive PollResp where
  | noContent
  | unauthorized
  | transportErr
  | okBody (body : Option (List RawEntry))
deriving DecidableEq, Repr

/-- Function `poll`: returns the new `lastID` and either an error or the parsed
batch (`ok none` mirrors Go's `(nil, nil)` on 204; `ok (some msgs)` is a
content batch). On 200, `lastID` advances to the last entry's id iff the
parsed batch is non-empty. -/
def poll (lastID : String) (resp : PollResp) :
    String × Except String (Option (List PollMsg)) :=
  match resp with
  | .noContent => (lastID, .ok none)
  | .unauthorized => (lastID, .error "server rejected access key")
  | .transportErr => (lastID, .error "transport failure")
  | .okBody body =>
      match parsePollMessages body with
      | .error e => (lastID, .error e)
      | .ok msgs =>
          match msgs.getLast? with
          | some last => (last.id, .ok (some msgs))
          | none => (lastID, .ok (some msgs))

/-- Function `minDur` from `network_client.go`. Durations are modelled in seconds. -/
def minDur (a b : Nat) : Nat := if a < b then a else b

/-- Constant `maxBackoff` (30 seconds). -/
def maxBackoff : Nat := 30

/-- The initial backoff (`backoff := 1 * time.Second`). -/
def initialBackoff : Nat := 1

/-- Observable actions of one poll-loop iteration: an `onStatusChange`
invocation, an `onMessage` invocation (carrying the delivered entry), the
backoff sleep on a failed cycle, and the 500 ms pause after a nil batch. -/
inductive Event where
  | statusEv (connected : Bool)
  | msgEv (m : PollMsg)
  | backoffWait (seconds : Nat)
  | idleWait
deriving DecidableEq, Repr

/-- The mutable state of `pollLoop` (locals plus the two shared fields it
touches: `lastID` and `sentIDs`). -/
structure LoopState where
  lastID : String := ""
  sentIDs : Finset String := ∅
  backoff : Nat := initialBackoff
  firstConnect : Bool := true
  wasConnected : Bool := false
deriving DecidableEq

/-- One iteration of `pollLoop` (`network_client.go:250-299`), given the
response the network produced for this cycle. Returns the new state and
the events of the iteration in program order. -/
def pollLoopIter (st : LoopState) (resp : PollResp) : LoopState × List Event :=
  let pres := poll st.lastID resp
  match pres.2 with
  | .error _ =>
      let evs := if st.firstConnect then [Event.statusEv false]
                 else if st.wasConnected then [Event.statusEv false]
                 else []
      ({ st with lastID := pres.1,
                 wasConnected := false,
                 backoff := minDur (st.backoff * 2) maxBackoff },
       evs ++ [Event.backoffWait st.backoff])
  | .ok msgsOpt =>
      let evs := if st.firstConnect || !st.wasConnected
                 then [Event.statusEv true] else []
      let dispatched := handleBatch st.sentIDs (msgsOpt.getD [])
      ({ st with lastID := pres.1,
                 backoff := initialBackoff,
                 firstConnect := false,
                 wasConnected := true,
                 sentIDs := dispatched.1 },
       evs ++ dispatched.2.map Event.msgEv ++
         (if msgsOpt.isNone then [Event.idleWait] else []))

/-- Run the poll loop over a trace of responses, collecting all events. -/
def runLoop (st : LoopState) : List PollResp → LoopState × List Event
  | [] => (st, [])
  | r :: rs =>
      let step := pollLoopIter st r
      let rest := runLoop step.1 rs
      (rest.1, step.2 ++ rest.2)

/-! ### Chat view render model (`views/chat_view.go`) -/

/-- Function `sanitizeContent`: escape every `[` in raw user content as `[[]`. -/
def sanitizeContent (s : String) : String :=
  s.replace "[" "[[]"

/-- Function `safeColorTag` (`chat_view.go:246-259`): validates a color tag from an
external source; anything malformed becomes `"[white]"`. Go indexes bytes;
this model indexes characters — the two agree because `[` and `]` are
ASCII and UTF-8 never embeds ASCII bytes inside a multi-byte character. -/
def safeColorTag (tag : String) : String :=
  let cs := tag.toList
  if cs.length < 3 then "[white]"
  else if cs.head? ≠ some '[' ∨ cs.getLast? ≠ some ']' then "[white]"
  else if ((cs.drop 1).dropLast).any (fun c => c = '[' || c = ']') then "[white]"
  else tag

/-- A chat message as `formatLine` consumes it. The `models` package is
not part of the sources; `timeText` stands for `msg.FormatTime()`. -/
structure Message where
  username : String
  content : String
  color : String
  isSystem : Bool := false
  timeText : String := ""
deriving DecidableEq, Repr

/-- Function `formatLine` (`chat_view.go:293-312`). -/
def formatLine (msg : Message) : String :=
  if msg.isSystem then "[yellow]▸ " ++ msg.content ++ "[-]\n"
  else
    let color0 := safeColorTag msg.color
    let color := if color0 = "" then "[white]" else color0
    "[gray][" ++ msg.timeText ++ "][-] " ++ color ++ "[[]" ++
      sanitizeContent msg.username ++ "][-] " ++ color ++
      sanitizeContent msg.content ++ "[-]\n"

/-- Function `incomingPrefix` (`chat_view.go:320-325`); `ts` stands for
`time.Now().Format("15:04")`. -/
def incomingPre (ts colorTag username : String) : String :=
  "[gray][" ++ ts ++ "][-] " ++ colorTag ++ "[[]" ++
    sanitizeContent username ++ "][-] " ++ colorTag

/-- The render-model fields of `ChatView` (`chat_view.go:68-71`). The Go
map `inFlight` is an association list with distinct keys. -/
structure ChatState where
  committedText : String := ""
  inFlight : List (Nat × String) := []
  nextAnimID : Nat := 0
  inFlightGen : Nat := 0
deriving DecidableEq, Repr

/-- Go map read `inFlight[k]`. -/
def lookupSlot (m : List (Nat × String)) (k : Nat) : Option String :=
  match m.find? (fun kv => kv.1 == k) with
  | some kv => some kv.2
  | none => none

/-- Go map write `inFlight[k] = v` (overwrite or insert). -/
def insertSlot (m : List (Nat × String)) (k : Nat) (v : String) :
    List (Nat × String) :=
  if (m.find? (fun kv => kv.1 == k)).isSome
  then m.map (fun kv => if kv.1 == k then (k, v) else kv)
  else m ++ [(k, v)]

/-- Go map delete `delete(inFlight, k)`. -/
def eraseSlot (m : List (Nat × String)) (k : Nat) : List (Nat × String) :=
  m.filter (fun kv => kv.1 != k)

/-- Function `renderMessages` (`chat_view.go:263-282`): committed text, then the
loop `for i := 0; i < nextAnimID; i++ { if line, ok := inFlight[i] ... }`. -/
def renderMessages (s : ChatState) : String :=
  s.committedText ++
    String.join ((List.range s.nextAnimID).filterMap (lookupSlot s.inFlight))

/-- Method `AddMessage` (`chat_view.go:334-337`). -/
def AddMessage (s : ChatState) (msg : Message) : ChatState :=
  { s with committedText := s.committedText ++ formatLine msg }

/-- The static-mode draw callback of `AddIncomingMessage`
(`chat_view.go:382-401`); `pre` is the already-built incoming prefix. -/
def staticDraw (stopped : Bool) (pre content : String) (s : ChatState) :
    ChatState :=
  if stopped then s
  else { s with committedText :=
          s.committedText ++ pre ++ sanitizeContent content ++ "[-]\n" }

/-- The animation-init callback of `AddIncomingMessage`
(`chat_view.go:415-437`): allocate a slot at `nextAnimID`, paint the
cursor, and hand `(animID, gen)` to the animation goroutine. -/
def animInit (stopped : Bool) (pre : String) (s : ChatState) :
    ChatState × Option (Nat × Nat) :=
  if stopped then (s, none)
  else
    ({ s with nextAnimID := s.nextAnimID + 1,
              inFlight := insertSlot s.inFlight s.nextAnimID
                (pre ++ "[dim]▋[-]") },
     some (s.nextAnimID, s.inFlightGen))

/-- The word-tick callback of the animation goroutine
(`chat_view.go:480-508`): bail out when stopped or when the captured
generation `myGen` is stale; otherwise update the slot, or on the last
word retire the slot into the committed buffer. -/
def wordTick (stopped : Bool) (animID myGen : Nat) (pre snapshot : String)
    (isLast : Bool) (s : ChatState) : ChatState :=
  if stopped then s
  else if s.inFlightGen ≠ myGen then s
  else
    let sanitized := sanitizeContent snapshot
    if isLast then
      { s with inFlight := eraseSlot s.inFlight animID,
               committedText := s.committedText ++ pre ++ sanitized ++ "[-]\n" }
    else
      { s with inFlight :=
          insertSlot s.inFlight animID (pre ++ sanitized ++ " [dim]▋[-]") }

/-- Method `SetMessages` (`chat_view.go:515-531`): bulk replace the committed
buffer and discard all in-flight slots. -/
def SetMessages (stopped : Bool) (msgs : List Message) (s : ChatState) :
    ChatState :=
  if stopped then s
  else { s with committedText := String.join (msgs.map formatLine),
                inFlight := [] }

/-- Method `ClearMessages` (`chat_view.go:539-544`): wipe the committed buffer
and the slot map and bump the generation; `nextAnimID` is untouched. -/
def ClearMessages (s : ChatState) : ChatState :=
  { s with committedText := "", inFlight := [],
           inFlightGen := s.inFlightGen + 1 }

/-- One queued update task of the render model, tagging which operation
it performs (all state mutation happens inside the tview event loop, one
task at a time, so a run of the view is a list of these). -/
inductive ViewOp where
  | addMsg (msg : Message)
  | staticOp (stopped : Bool) (pre content : String)
  | allocOp (stopped : Bool) (pre : String)
  | tickOp (stopped : Bool) (animID myGen : Nat) (pre snapshot : String)
      (isLast : Bool)
  | clearOp
  | setOp (stopped : Bool) (msgs : List Message)
deriving DecidableEq, Repr

/-- Apply one update task. -/
def applyOp (s : ChatState) : ViewOp → ChatState
  | .addMsg m => AddMessage s m
  | .staticOp st pre c => staticDraw st pre c s
  | .allocOp st pre => (animInit st pre s).1
  | .tickOp st a g pre sn l => wordTick st a g pre sn l s
  | .clearOp => ClearMessages s
  | .setOp st msgs => SetMessages st msgs s

/-- The slot id handed out by an update task (non-empty exactly for a
successful allocation). -/
def allocIds (s : ChatState) : ViewOp → List Nat
  | .allocOp stopped _ => if stopped then [] else [s.nextAnimID]
  | _ => []

/-- Run a sequence of update tasks, collecting every allocated slot id
in order. -/
def runOps (s : ChatState) : List ViewOp → ChatState × List Nat
  | [] => (s, [])
  | op :: rest =>
      let r := runOps (applyOp s op) rest
      (r.1, allocIds s op ++ r.2)

/-! ### Derived observers used by the theorems -/

/-- Outcome of one poll cycle: did `poll` return without error? -/
def cycleOk (st : LoopState) (resp : PollResp) : Bool :=
  match (poll st.lastID resp).2 with
  | .ok _ => true
  | .error _ => false

/-- Select the `onStatusChange` invocations from an event list. -/
def statusEvents (evs : List Event) : List Event :=
  evs.filter (fun e => match e with | .statusEv _ => true | _ => false)

/-- Select the `onMessage` invocations from an event list. -/
def messageEvents (evs : List Event) : List Event :=
  evs.filter (fun e => match e with | .msgEv _ => true | _ => false)

/-- The backoff delays actually slept, in order. -/
def waitedDelays (evs : List Event) : List Nat :=
  evs.filterMap (fun e => match e with | .backoffWait s => some s | _ => none)

/-- The poll cursor alone, iterated over a trace of responses. -/
def pollCursorRun (c : String) : List PollResp → String
  | [] => c
  | r :: rs => pollCursorRun (poll c r).1 rs

/-- Hypothesis on a trace (the wire contract of `/api/poll`): whenever a
cycle returns a content batch, the batch's last id is newer (`le`-above)
than the cursor the request carried. -/
def serverNewer (le : String → String → Prop) : String → List PollResp → Prop
  | _, [] => True
  | c, r :: rs =>
      (∀ msgs m, (poll c r).2 = .ok (some msgs) → msgs.getLast? = some m →
        le c m.id) ∧
      serverNewer le (poll c r).1 rs

/-- How many times a locally sent message with server id `sid` appears in
the transcript: once from the optimistic local commit
(`AppController.OnSendMessage` displays before sending), plus once per
delivered echo from the dispatch loop. -/
def transcriptCount (sentIDs : Finset String) (batch : List PollMsg)
    (sid : String) : Nat :=
  1 + ((handleBatch sentIDs batch).2.filter (fun m => m.id = sid)).length

/-- The slot entries `renderMessages` picks up, with their ids, in the
order its loop visits them. -/
def picked (s : ChatState) : List (Nat × String) :=
  (List.range s.nextAnimID).filterMap
    (fun i => (lookupSlot s.inFlight i).map (fun v => (i, v)))

/-- The slot-map invariant of `ChatView`: distinct slot keys, all below
the allocation counter. -/
def slotInv (s : ChatState) : Prop :=
  (s.inFlight.map Prod.fst).Nodup ∧
  ∀ k ∈ s.inFlight.map Prod.fst, k < s.nextAnimID

/-- Well-formedness of an update task against a state: a word tick only
ever carries a slot id that a previous allocation handed out, hence one
below the allocation counter. -/
def opOk (s : ChatState) : ViewOp → Prop
  | .tickOp _ animID _ _ _ _ => animID < s.nextAnimID
  | _ => True

/-- The spec's well-formedness condition on a color tag: starts with `[`,
ends with `]`, length at least 3, interior free of `[` and `]`. -/
def wellFormedColorTag (tag : String) : Prop :=
  tag.toList.head? = some '[' ∧ tag.toList.getLast? = some ']' ∧
  3 ≤ tag.toList.length ∧
  ∀ c ∈ (tag.toList.drop 1).dropLast, c ≠ '[' ∧ c ≠ ']'

instance : DecidablePred wellFormedColorTag := fun tag => by
  unfold wellFormedColorTag; infer_instance

/-! ### Stop interleaving (`Stop` versus an in-flight iteration)

In `pollLoop` the `stopped` flag is read once at the top of each
iteration (`network_client.go:252`); between `nc.poll()` returning and
the dispatch loop (`:258-290`) there is no further check, and neither
`handleIncoming` nor `notifyStatus` consults the flag. The model below
makes the two interleaving points explicit: `stoppedAtCheck` is the value
the top-of-loop read observes, `stoppedDuringPoll` says whether `Stop()`
ran while the network call was in flight — the latter deliberately has no
influence on the result, because the source gives it none. -/
set_option linter.unusedVariables false in
def iterWithStop (stoppedAtCheck stoppedDuringPoll : Bool) (st : LoopState)
    (resp : PollResp) : Option (LoopState × List Event) :=
  if stoppedAtCheck then none
  else some (pollLoopIter st resp)

/-- Events of an optional iteration result (`none` = loop exited). -/
def eventsOf (r : Option (LoopState × List Event)) : List Event :=
  match r with
  | some p => p.2
  | none => []

/-- A well-formed sample poll entry (author `alice`, body `hi`, id `m1`),
matching the example response in the wire contract. -/
def sampleGood : RawEntry :=
  [("alice", JVal.jstr "hi"), ("color", JVal.jstr "[green]"),
   ("id", JVal.jstr "m1")]

/-- A malformed sample poll entry: no author/body key at all. -/
def sampleBad : RawEntry :=
  [("color", JVal.jstr "[red]"), ("id", JVal.jstr "m2")]

/-- The message `sampleGood` parses to. -/
def sampleMsg : PollMsg :=
  { username := "alice", content := "hi", color := "[green]", id := "m1" }

/-- A concrete render state with two live slots, stored out of key order,
used to witness the composition invariant. -/
def demoState : ChatState :=
  { committedText := "C\n", inFlight := [(1, "b"), (0, "a")],
    nextAnimID := 2, inFlightGen := 0 }

/-! ### Helper lemmas -/

theorem pollLoopIter_transportErr (st : LoopState) :
    pollLoopIter st .transportErr =
      ({ st with wasConnected := false,
                 backoff := minDur (st.backoff * 2) maxBackoff },
       (if st.firstConnect then [Event.statusEv false]
        else if st.wasConnected then [Event.statusEv false] else []) ++
        [Event.backoffWait st.backoff]) := rfl

theorem waitedDelays_append (a b : List Event) :
    waitedDelays (a ++ b) = waitedDelays a ++ waitedDelays b :=
  List.filterMap_append a b _

theorem waitedDelays_statusPart (c : Bool) :
    waitedDelays (if c then [Event.statusEv false] else []) = [] := by
  cases c <;> rfl

theorem iterErr_state (st : LoopState) :
    (pollLoopIter st .transportErr).1 =
      { st with wasConnected := false,
                backoff := minDur (st.backoff * 2) maxBackoff } := rfl

theorem iterErr_backoff (st : LoopState) :
    (pollLoopIter st .transportErr).1.backoff =
      minDur (st.backoff * 2) maxBackoff := rfl

theorem statusPart_delays (st : LoopState) :
    waitedDelays (if st.firstConnect then [Event.statusEv false]
      else if st.wasConnected then [Event.statusEv false] else []) = [] := by
  by_cases a : st.firstConnect <;> by_cases b : st.wasConnected <;>
    simp [a, b, waitedDelays]

theorem iterErr_delays (st : LoopState) :
    waitedDelays (pollLoopIter st .transportErr).2 = [st.backoff] := by
  rw [pollLoopIter_transportErr]
  simp only [waitedDelays_append, statusPart_delays, List.nil_append]
  rfl

theorem delays_bounds (n : Nat) :
    ∀ st : LoopState, st.backoff ≤ maxBackoff →
      ∀ d ∈ waitedDelays (runLoop st (List.replicate n PollResp.transportErr)).2,
        st.backoff ≤ d ∧ d ≤ maxBackoff := by
  induction n with
  | zero => intro st _ d hd; simp [runLoop, waitedDelays] at hd
  | succ n ih =>
      intro st hle d hd
      rw [List.replicate_succ] at hd
      simp only [runLoop] at hd
      rw [waitedDelays_append, iterErr_delays] at hd
      have hb2 : (pollLoopIter st .transportErr).1.backoff ≤ maxBackoff := by
        rw [iterErr_backoff]; unfold minDur; split <;> omega
      have hble : st.backoff ≤ (pollLoopIter st .transportErr).1.backoff := by
        rw [iterErr_backoff]; unfold minDur maxBackoff at *; split <;> omega
      rw [List.singleton_append, List.mem_cons] at hd
      rcases hd with rfl | hd
      · exact ⟨le_refl _, hle⟩
      · have := ih _ hb2 d hd
        exact ⟨le_trans hble this.1, this.2⟩

theorem delays_sorted (n : Nat) :
    ∀ st : LoopState, st.backoff ≤ maxBackoff →
      (waitedDelays
        (runLoop st (List.replicate n PollResp.transportErr)).2).Sorted (· ≤ ·) := by
  induction n with
  | zero => intro st _; simp [runLoop, waitedDelays]
  | succ n ih =>
      intro st hle
      rw [List.replicate_succ]
      simp only [runLoop]
      rw [waitedDelays_append, iterErr_delays]
      have hb2 : (pollLoopIter st .transportErr).1.backoff ≤ maxBackoff := by
        rw [iterErr_backoff]; unfold minDur; split <;> omega
      have hble : st.backoff ≤ (pollLoopIter st .transportErr).1.backoff := by
        rw [iterErr_backoff]; unfold minDur maxBackoff at *; split <;> omega
      rw [List.singleton_append, List.sorted_cons]
      exact ⟨fun d hd => le_trans hble (delays_bounds n _ hb2 d hd).1, ih _ hb2⟩

/-- C3: the reconnect backoff starts at 1 second; a failed poll cycle
sleeps the current backoff and then doubles it capped at 30 seconds
(`minDur (b*2) 30`), so over consecutive failures the slept delays are
monotonically non-decreasing and never exceed 30 seconds; any successful
poll cycle resets the backoff to 1 second. -/
theorem backoff_start_double_cap_reset :
    initialBackoff = 1 ∧
    (∀ st resp, cycleOk st resp = false →
        (pollLoopIter st resp).1.backoff = minDur (st.backoff * 2) maxBackoff ∧
        Event.backoffWait st.backoff ∈ (pollLoopIter st resp).2) ∧
    (∀ st resp, cycleOk st resp = true →
        (pollLoopIter st resp).1.backoff = initialBackoff) ∧
    (∀ b, 1 ≤ b → b ≤ maxBackoff →
        b ≤ minDur (b * 2) maxBackoff ∧ 1 ≤ minDur (b * 2) maxBackoff ∧
        minDur (b * 2) maxBackoff ≤ maxBackoff) ∧
    (∀ st n, st.backoff ≤ maxBackoff →
        (waitedDelays
          (runLoop st (List.replicate n PollResp.transportErr)).2).Sorted (· ≤ ·) ∧
        ∀ d ∈ waitedDelays
            (runLoop st (List.replicate n PollResp.transportErr)).2,
          d ≤ maxBackoff) := by
  refine ⟨rfl, ?_, ?_, ?_, ?_⟩
  · intro st resp h
    unfold cycleOk at h
    cases hp : (poll st.lastID resp).2 with
    | ok v => rw [hp] at h; simp at h
    | error e =>
        constructor
        · simp [pollLoopIter, hp]
        · simp [pollLoopIter, hp]
  · intro st resp h
    unfold cycleOk at h
    cases hp : (poll st.lastID resp).2 with
    | error e => rw [hp] at h; simp at h
    | ok v => simp [pollLoopIter, hp]
  · intro b h1 h2
    unfold minDur maxBackoff at *
    refine ⟨?_, ?_, ?_⟩ <;> (split <;> omega)
  · intro st n hle
    exact ⟨delays_sorted n st hle,
      fun d hd => (delays_bounds n st hle d hd).2⟩

/-- Witness for C3 at concrete inputs: a failed first cycle doubles the
backoff from 1 to 2 and a 204 cycle resets it; seven consecutive failures
produce the non-decreasing capped delay sequence. -/
theorem backoff_start_double_cap_reset_witness :
    cycleOk {} PollResp.transportErr = false ∧
    (pollLoopIter {} PollResp.transportErr).1.backoff =
      minDur (initialBackoff * 2) maxBackoff ∧
    cycleOk {} PollResp.noContent = true ∧
    (pollLoopIter {} PollResp.noContent).1.backoff = initialBackoff ∧
    (waitedDelays
      (runLoop {} (List.replicate 7 PollResp.transportErr)).2).Sorted (· ≤ ·) := by
  obtain ⟨-, herr, hok, -, htrace⟩ := backoff_start_double_cap_reset
  exact ⟨by decide, (herr {} PollResp.transportErr (by decide)).1, by decide,
    hok {} PollResp.noContent (by decide),
    (htrace {} 7 (by decide)).1⟩

/-- C9: `safeColorTag` is total and exactly characterized — it returns
its input iff the input starts with `[`, ends with `]`, has length at
least 3 and an interior free of `[` and `]`, and returns `"[white]"` in
every other case; consequently its output is always a well-formed tag,
so no wire-supplied color value ever reaches the rendered text as a
malformed tview tag. -/
theorem safeColorTag_total_characterization :
    (∀ tag : String,
      safeColorTag tag = if wellFormedColorTag tag then tag else "[white]") ∧
    (∀ tag : String, wellFormedColorTag (safeColorTag tag)) := by
  have key : ∀ tag : String,
      safeColorTag tag = if wellFormedColorTag tag then tag else "[white]" := by
    intro tag
    unfold safeColorTag
    by_cases h1 : tag.toList.length < 3
    · rw [if_pos h1, if_neg]
      rintro ⟨-, -, h3, -⟩
      omega
    · rw [if_neg h1]
      by_cases h2 : tag.toList.head? ≠ some '[' ∨ tag.toList.getLast? ≠ some ']'
      · rw [if_pos h2, if_neg]
        rintro ⟨ha, hb, -, -⟩
        rcases h2 with h | h
        · exact h ha
        · exact h hb
      · rw [if_neg h2]
        push_neg at h2
        obtain ⟨ha, hb⟩ := h2
        by_cases h3 : ((tag.toList.drop 1).dropLast).any
            (fun c => c = '[' || c = ']') = true
        · rw [if_pos h3, if_neg]
          rintro ⟨-, -, -, h4⟩
          rw [List.any_eq_true] at h3
          obtain ⟨c, hc, hcp⟩ := h3
          have hne := h4 c hc
          simp only [Bool.or_eq_true, decide_eq_true_eq] at hcp
          rcases hcp with rfl | rfl
          · exact hne.1 rfl
          · exact hne.2 rfl
        · rw [if_neg h3, if_pos]
          refine ⟨ha, hb, by omega, ?_⟩
          intro c hc
          rw [Bool.not_eq_true, List.any_eq_false] at h3
          have := h3 c hc
          simp only [Bool.or_eq_true, decide_eq_true_eq, not_or] at this
          exact this
  refine ⟨key, fun tag => ?_⟩
  rw [key tag]
  by_cases h : wellFormedColorTag tag
  · rwa [if_pos h]
  · rw [if_neg h]
    decide

theorem staticDraw_gen (stp : Bool) (pre c : String) (s : ChatState) :
    (staticDraw stp pre c s).inFlightGen = s.inFlightGen := by
  unfold staticDraw; split <;> rfl

theorem animInit_gen (stp : Bool) (pre : String) (s : ChatState) :
    (animInit stp pre s).1.inFlightGen = s.inFlightGen := by
  unfold animInit; split <;> rfl

theorem wordTick_gen (stp : Bool) (a g : Nat) (pre sn : String) (l : Bool)
    (s : ChatState) : (wordTick stp a g pre sn l s).inFlightGen = s.inFlightGen := by
  unfold wordTick
  split
  · rfl
  · split
    · rfl
    · dsimp only
      split <;> rfl

theorem SetMessages_gen (stp : Bool) (msgs : List Message) (s : ChatState) :
    (SetMessages stp msgs s).inFlightGen = s.inFlightGen := by
  unfold SetMessages; split <;> rfl

theorem applyOp_gen_mono (s : ChatState) (op : ViewOp) :
    s.inFlightGen ≤ (applyOp s op).inFlightGen := by
  cases op with
  | addMsg m => exact le_refl _
  | staticOp stp pre c => simp only [applyOp, staticDraw_gen]; exact le_refl _
  | allocOp stp pre => simp only [applyOp, animInit_gen]; exact le_refl _
  | tickOp stp a g pre sn l =>
      simp only [applyOp, wordTick_gen]; exact le_refl _
  | clearOp => exact Nat.le_succ _
  | setOp stp msgs => simp only [applyOp, SetMessages_gen]; exact le_refl _

theorem runOps_gen_mono (ops : List ViewOp) :
    ∀ s : ChatState, s.inFlightGen ≤ (runOps s ops).1.inFlightGen := by
  induction ops with
  | nil => intro s; exact le_refl _
  | cons op rest ih =>
      intro s
      exact le_trans (applyOp_gen_mono s op) (ih (applyOp s op))

theorem runOps_clear_gen_lt (ops : List ViewOp) :
    ∀ s : ChatState, ViewOp.clearOp ∈ ops →
      s.inFlightGen < (runOps s ops).1.inFlightGen := by
  induction ops with
  | nil => intro s h; simp at h
  | cons op rest ih =>
      intro s h
      rcases List.mem_cons.mp h with rfl | h
      · have h1 : s.inFlightGen < (applyOp s ViewOp.clearOp).inFlightGen :=
          Nat.lt_succ_self _
        exact lt_of_lt_of_le h1 (runOps_gen_mono rest _)
      · exact lt_of_le_of_lt (applyOp_gen_mono s op) (ih (applyOp s op) h)

/-- C2: a word-tick callback whose captured generation differs from the
current one is a no-op (neither the slot map nor the committed buffer is
modified); `ClearMessages` increments the generation; and for any task
allocated before a clear (its captured generation is the allocation-time
`inFlightGen`), after any sequence of update tasks containing a clear the
callback leaves the state entirely unchanged, even mid-reveal. -/
theorem clear_invalidates_stale_animation :
    (∀ (stopped : Bool) (animID myGen : Nat) (pre snap : String)
        (isLast : Bool) (s : ChatState), myGen ≠ s.inFlightGen →
        wordTick stopped animID myGen pre snap isLast s = s) ∧
    (∀ s : ChatState, (ClearMessages s).inFlightGen = s.inFlightGen + 1) ∧
    (∀ (s₀ : ChatState) (preA : String),
        (animInit false preA s₀).2 = some (s₀.nextAnimID, s₀.inFlightGen)) ∧
    (∀ (s₀ : ChatState) (preA : String) (ops : List ViewOp),
        ViewOp.clearOp ∈ ops →
        ∀ (stopped : Bool) (animID : Nat) (pre snap : String) (isLast : Bool),
        wordTick stopped animID s₀.inFlightGen pre snap isLast
            (runOps (animInit false preA s₀).1 ops).1 =
          (runOps (animInit false preA s₀).1 ops).1) := by
  have noop : ∀ (stopped : Bool) (animID myGen : Nat) (pre snap : String)
      (isLast : Bool) (s : ChatState), myGen ≠ s.inFlightGen →
      wordTick stopped animID myGen pre snap isLast s = s := by
    intro stopped animID myGen pre snap isLast s h
    unfold wordTick
    split
    · rfl
    · rw [if_pos (Ne.symm h)]
  refine ⟨noop, fun s => rfl, fun s₀ preA => rfl, ?_⟩
  intro s₀ preA ops hclear stopped animID pre snap isLast
  apply noop
  have hkeep : (animInit false preA s₀).1.inFlightGen = s₀.inFlightGen := rfl
  have := runOps_clear_gen_lt ops (animInit false preA s₀).1 hclear
  rw [hkeep] at this
  omega

/-- Witness for C2: with generation 5 against a fresh state (generation
0) the tick is a no-op, and a task allocated at generation 0 followed by
one `ClearMessages` can no longer touch the state. -/
theorem clear_invalidates_stale_animation_witness :
    (5 ≠ (({} : ChatState)).inFlightGen ∧
      wordTick false 0 5 "p" "w" true {} = {}) ∧
    (ViewOp.clearOp ∈ [ViewOp.clearOp] ∧
      wordTick false 0 ({} : ChatState).inFlightGen "p" "w" false
          (runOps (animInit false "p" ({} : ChatState)).1 [ViewOp.clearOp]).1 =
        (runOps (animInit false "p" ({} : ChatState)).1 [ViewOp.clearOp]).1) := by
  obtain ⟨noop, -, -, htrace⟩ := clear_invalidates_stale_animation
  exact ⟨⟨by decide, noop false 0 5 "p" "w" true {} (by decide)⟩,
    ⟨by decide, htrace {} "p" [ViewOp.clearOp] (by decide) false 0 "p" "w" false⟩⟩

theorem staticDraw_anim (stp : Bool) (pre c : String) (s : ChatState) :
    (staticDraw stp pre c s).nextAnimID = s.nextAnimID := by
  unfold staticDraw; split <;> rfl

theorem wordTick_anim (stp : Bool) (a g : Nat) (pre sn : String) (l : Bool)
    (s : ChatState) : (wordTick stp a g pre sn l s).nextAnimID = s.nextAnimID := by
  unfold wordTick
  split
  · rfl
  · split
    · rfl
    · dsimp only
      split <;> rfl

theorem SetMessages_anim (stp : Bool) (msgs : List Message) (s : ChatState) :
    (SetMessages stp msgs s).nextAnimID = s.nextAnimID := by
  unfold SetMessages; split <;> rfl

theorem applyOp_anim_mono (s : ChatState) (op : ViewOp) :
    s.nextAnimID ≤ (applyOp s op).nextAnimID := by
  cases op with
  | addMsg m => exact le_refl _
  | staticOp stp pre c => simp only [applyOp, staticDraw_anim]; exact le_refl _
  | allocOp stp pre =>
      simp only [applyOp]
      unfold animInit
      split
      · exact le_refl _
      · exact Nat.le_succ _
  | tickOp stp a g pre sn l =>
      simp only [applyOp, wordTick_anim]; exact le_refl _
  | clearOp => exact le_refl _
  | setOp stp msgs => simp only [applyOp, SetMessages_anim]; exact le_refl _

theorem runOps_anim_mono (ops : List ViewOp) :
    ∀ s : ChatState, s.nextAnimID ≤ (runOps s ops).1.nextAnimID := by
  induction ops with
  | nil => intro s; exact le_refl _
  | cons op rest ih =>
      intro s
      exact le_trans (applyOp_anim_mono s op) (ih (applyOp s op))

theorem runOps_ids_lb (ops : List ViewOp) :
    ∀ s : ChatState, ∀ i ∈ (runOps s ops).2, s.nextAnimID ≤ i := by
  induction ops with
  | nil => intro s i hi; simp [runOps] at hi
  | cons op rest ih =>
      intro s i hi
      simp only [runOps] at hi
      rw [List.mem_append] at hi
      rcases hi with hi | hi
      · cases op with
        | allocOp stp pre =>
            simp only [allocIds] at hi
            split at hi
            · simp at hi
            · rw [List.mem_singleton] at hi
              exact le_of_eq hi.symm
        | addMsg m => simp [allocIds] at hi
        | staticOp stp pre c => simp [allocIds] at hi
        | tickOp stp a g pre sn l => simp [allocIds] at hi
        | clearOp => simp [allocIds] at hi
        | setOp stp msgs => simp [allocIds] at hi
      · exact le_trans (applyOp_anim_mono s op) (ih (applyOp s op) i hi)

theorem runOps_ids_sorted (ops : List ViewOp) :
    ∀ s : ChatState, ((runOps s ops).2).Sorted (· < ·) := by
  induction ops with
  | nil => intro s; simp [runOps]
  | cons op rest ih =>
      intro s
      simp only [runOps]
      refine List.pairwise_append.mpr ⟨?_, ih _, ?_⟩
      · cases op with
        | allocOp stp pre =>
            simp only [allocIds]
            split
            · simp
            · simp
        | addMsg m => simp [allocIds]
        | staticOp stp pre c => simp [allocIds]
        | tickOp stp a g pre sn l => simp [allocIds]
        | clearOp => simp [allocIds]
        | setOp stp msgs => simp [allocIds]
      · intro a ha b hb
        cases op with
        | allocOp stp pre =>
            simp only [allocIds] at ha
            split at ha
            · simp at ha
            · rw [List.mem_singleton] at ha
              subst ha
              rename_i hstp
              have hstep : (applyOp s (ViewOp.allocOp stp pre)).nextAnimID =
                  s.nextAnimID + 1 := by
                simp only [applyOp]
                unfold animInit
                rw [if_neg hstp]
              have := runOps_ids_lb rest (applyOp s (ViewOp.allocOp stp pre)) b hb
              omega
        | addMsg m => simp [allocIds] at ha
        | staticOp stp pre c => simp [allocIds] at ha
        | tickOp stp a' g pre sn l => simp [allocIds] at ha
        | clearOp => simp [allocIds] at ha
        | setOp stp msgs => simp [allocIds] at ha

/-- C10: the slot-id counter `nextAnimID` is never reset — `ClearMessages`
and `SetMessages` empty the slot map but leave it untouched — and no
update task ever decreases it; a successful allocation hands out the
current counter value and increments it, so across any sequence of update
tasks the allocated slot ids are strictly increasing: every allocation
(also one made after a clear) gets an id strictly greater than all
earlier ones, and no two animation tasks share a slot key. -/
theorem nextAnimID_monotone_never_reset :
    (∀ s : ChatState, (ClearMessages s).nextAnimID = s.nextAnimID ∧
        (ClearMessages s).inFlight = []) ∧
    (∀ (msgs : List Message) (s : ChatState),
        (SetMessages false msgs s).nextAnimID = s.nextAnimID ∧
        (SetMessages false msgs s).inFlight = []) ∧
    (∀ (s : ChatState) (op : ViewOp),
        s.nextAnimID ≤ (applyOp s op).nextAnimID) ∧
    (∀ (s : ChatState) (pre : String),
        (animInit false pre s).2 = some (s.nextAnimID, s.inFlightGen) ∧
        (animInit false pre s).1.nextAnimID = s.nextAnimID + 1) ∧
    (∀ (s : ChatState) (ops : List ViewOp),
        ((runOps s ops).2).Sorted (· < ·)) :=
  ⟨fun _ => ⟨rfl, rfl⟩, fun _ _ => ⟨rfl, rfl⟩, applyOp_anim_mono,
   fun _ _ => ⟨rfl, rfl⟩, fun s ops => runOps_ids_sorted ops s⟩

theorem poll_cases (c : String) (r : PollResp) :
    (poll c r).1 = c ∨
    ∃ msgs m, (poll c r).2 = .ok (some msgs) ∧ msgs.getLast? = some m ∧
      (poll c r).1 = m.id := by
  cases r with
  | noContent => exact Or.inl rfl
  | unauthorized => exact Or.inl rfl
  | transportErr => exact Or.inl rfl
  | okBody body =>
      cases hp : parsePollMessages body with
      | error e => exact Or.inl (by simp [poll, hp])
      | ok msgs =>
          cases hl : msgs.getLast? with
          | none => exact Or.inl (by simp [poll, hp, hl])
          | some m =>
              exact Or.inr ⟨msgs, m, by simp [poll, hp, hl], hl,
                by simp [poll, hp, hl]⟩

/-- C8: after a successful content-bearing poll (HTTP 200, parseable
array, at least one valid entry) the cursor `lastID` equals the id of the
batch's last entry; every other outcome — 204, 401, transport failure,
unparseable array, or an empty parsed batch — leaves the cursor
untouched; and under the wire contract that each content batch's last id
is newer than the cursor that requested it (any reflexive transitive
order), the cursor never rolls back over a whole trace. -/
theorem pollCursor_last_id_monotone :
    (∀ lastID body msgs m, parsePollMessages body = .ok msgs →
        msgs.getLast? = some m →
        poll lastID (.okBody body) = (m.id, .ok (some msgs))) ∧
    (∀ lastID, (poll lastID .noContent).1 = lastID) ∧
    (∀ lastID, (poll lastID .unauthorized).1 = lastID) ∧
    (∀ lastID, (poll lastID .transportErr).1 = lastID) ∧
    (∀ lastID body e, parsePollMessages body = .error e →
        (poll lastID (.okBody body)).1 = lastID) ∧
    (∀ lastID body, parsePollMessages body = .ok [] →
        (poll lastID (.okBody body)).1 = lastID) ∧
    (∀ le : String → String → Prop, Reflexive le → Transitive le →
        ∀ rs c, serverNewer le c rs → le c (pollCursorRun c rs)) := by
  refine ⟨?_, fun _ => rfl, fun _ => rfl, fun _ => rfl, ?_, ?_, ?_⟩
  · intro lastID body msgs m hp hl
    simp [poll, hp, hl]
  · intro lastID body e hp
    simp [poll, hp]
  · intro lastID body hp
    simp [poll, hp]
  · intro le hrefl htrans rs
    induction rs with
    | nil => intro c _; exact hrefl c
    | cons r rs ih =>
        intro c h
        simp only [serverNewer] at h
        obtain ⟨h1, h2⟩ := h
        have step : le c (poll c r).1 := by
          rcases poll_cases c r with hc | ⟨msgs, m, hok, hl, hid⟩
          · rw [hc]; exact hrefl c
          · rw [hid]; exact h1 msgs m hok hl
        simp only [pollCursorRun]
        exact htrans step (ih (poll c r).1 h2)

/-- Witness for C8: a successful batch `[sampleGood]` advances the cursor
from `""` to `"m1"`; a 204 leaves it at `"old"`; and a one-cycle trace
satisfies the never-rolled-back conclusion. -/
theorem pollCursor_last_id_monotone_witness :
    poll "" (.okBody (some [sampleGood])) = ("m1", .ok (some [sampleMsg])) ∧
    (poll "old" .noContent).1 = "old" ∧
    (fun _ _ : String => True) ""
      (pollCursorRun "" [PollResp.okBody (some [sampleGood])]) := by
  obtain ⟨hcontent, hnc, -, -, -, -, hmono⟩ := pollCursor_last_id_monotone
  refine ⟨?_, hnc "old", ?_⟩
  · have := hcontent "" (some [sampleGood]) [sampleMsg] sampleMsg rfl rfl
    simpa using this
  · exact hmono (fun _ _ => True) (fun _ => trivial)
      (fun _ _ _ _ _ => trivial) [PollResp.okBody (some [sampleGood])] ""
      ⟨fun _ _ _ _ => trivial, trivial⟩

/-- C7: an unparseable poll body fails the whole cycle — `poll` errors
with the cursor unchanged and the loop iteration is indistinguishable
from a transport failure (no message delivered, backoff branch taken) —
while a parseable array is filtered entry by entry: the delivered batch
is exactly the well-formed entries in order (each element missing its
author key, body value, or id is dropped individually); in particular one
well-formed plus one malformed entry yields exactly one message. -/
theorem poll_parse_failure_granularity :
    parsePollMessages none = .error "parse poll array" ∧
    (∀ lastID, poll lastID (.okBody none) = (lastID, .error "parse poll array")) ∧
    (∀ st, pollLoopIter st (.okBody none) = pollLoopIter st .transportErr) ∧
    (∀ st, messageEvents (pollLoopIter st (.okBody none)).2 = []) ∧
    (∀ rawList, parsePollMessages (some rawList) =
        .ok ((rawList.map parseEntry).filter (fun m => !entryMalformed m))) ∧
    parsePollMessages (some [sampleGood, sampleBad]) = .ok [sampleMsg] := by
  have h3 : ∀ st, pollLoopIter st (.okBody none) = pollLoopIter st .transportErr :=
    fun st => rfl
  refine ⟨rfl, fun _ => rfl, h3, ?_, ?_, rfl⟩
  · intro st
    rw [h3, pollLoopIter_transportErr]
    by_cases a : st.firstConnect <;> by_cases b : st.wasConnected <;>
      simp [a, b, messageEvents]
  · intro rawList
    have hlist : ∀ l : List RawEntry,
        l.filterMap (fun raw =>
          if entryMalformed (parseEntry raw) = true then none
          else some (parseEntry raw)) =
        (l.map parseEntry).filter (fun m => !entryMalformed m) := by
      intro l
      induction l with
      | nil => rfl
      | cons raw rest ih =>
          simp only [List.filterMap_cons, List.map_cons, List.filter_cons]
          by_cases h : entryMalformed (parseEntry raw) = true
          · simp [h, ih]
          · simp only [Bool.not_eq_true] at h
            simp [h, ih]
    exact congrArg Except.ok (hlist rawList)

theorem handleBatch_deliv_sublist :
    ∀ (batch : List PollMsg) (sent : Finset String),
      (handleBatch sent batch).2.Sublist batch := by
  intro batch
  induction batch with
  | nil => intro sent; simp [handleBatch]
  | cons m rest ih =>
      intro sent
      simp only [handleBatch]
      unfold handleIncoming
      by_cases h : m.id ∈ sent
      · rw [if_pos h]
        simpa using List.Sublist.cons m (ih (sent.erase m.id))
      · rw [if_neg h]
        simpa using List.Sublist.cons₂ m (ih sent)

theorem handleBatch_filter_le (p : PollMsg → Bool) (batch : List PollMsg)
    (sent : Finset String) :
    ((handleBatch sent batch).2.filter p).length ≤ (batch.filter p).length :=
  ((handleBatch_deliv_sublist batch sent).filter p).length_le

theorem handleBatch_sent_zero (sid : String) :
    ∀ (batch : List PollMsg) (sent : Finset String), sid ∈ sent →
      (batch.filter (fun m => m.id = sid)).length ≤ 1 →
      ((handleBatch sent batch).2.filter (fun m => m.id = sid)).length = 0 := by
  intro batch
  induction batch with
  | nil => intro sent _ _; rfl
  | cons m rest ih =>
      intro sent hs hcnt
      simp only [handleBatch]
      unfold handleIncoming
      by_cases hid : m.id = sid
      · rw [if_pos (by rwa [hid])]
        rw [List.filter_cons_of_pos (by simp [hid])] at hcnt
        simp only [List.length_cons] at hcnt
        have hrest0 : (rest.filter (fun m' => decide (m'.id = sid))).length = 0 := by
          omega
        have hsub := handleBatch_filter_le (fun m' => decide (m'.id = sid)) rest
          (sent.erase m.id)
        dsimp only
        simp only [Option.toList_none, List.nil_append]
        omega
      · rw [List.filter_cons_of_neg (by simp [hid])] at hcnt
        by_cases hm : m.id ∈ sent
        · rw [if_pos hm]
          have hsid : sid ∈ sent.erase m.id :=
            Finset.mem_erase.mpr ⟨fun h => hid h.symm, hs⟩
          simpa using ih (sent.erase m.id) hsid hcnt
        · rw [if_neg hm]
          have hres := ih sent hs hcnt
          dsimp only
          simp only [Option.toList_some, List.singleton_append]
          rw [List.filter_cons_of_neg (by simp [hid])]
          exact hres

/-- C1: the dedup rule of `handleIncoming` — an id present in `sentIDs`
is removed and the entry discarded without invoking `onMessage`, an
absent id is delivered exactly once with the entry's author, body and
color — and the transcript consequence: for a locally sent message whose
id is registered in `sentIDs` and echoed at most once in a poll batch,
the message appears in the transcript exactly once (the optimistic local
commit), regardless of echo timing. -/
theorem dedup_echo_exactly_once :
    (∀ (sent : Finset String) (m : PollMsg), m.id ∈ sent →
        handleIncoming sent m = (sent.erase m.id, none)) ∧
    (∀ (sent : Finset String) (m : PollMsg), m.id ∉ sent →
        handleIncoming sent m = (sent, some m)) ∧
    (∀ (sent : Finset String) (batch : List PollMsg) (sid : String),
        sid ∈ sent → (batch.filter (fun m => m.id = sid)).length ≤ 1 →
        transcriptCount sent batch sid = 1) := by
  refine ⟨?_, ?_, ?_⟩
  · intro sent m h; unfold handleIncoming; rw [if_pos h]
  · intro sent m h; unfold handleIncoming; rw [if_neg h]
  · intro sent batch sid hs hcnt
    unfold transcriptCount
    rw [handleBatch_sent_zero sid batch sent hs hcnt]

/-- Witness for C1 at concrete inputs: with `"m1"` pending, the echo of
`sampleMsg` is suppressed and removed; with an empty pending set it is
delivered; the transcript count for the echoed send is exactly 1. -/
theorem dedup_echo_exactly_once_witness :
    ("m1" ∈ ({"m1"} : Finset String) ∧
      handleIncoming {"m1"} sampleMsg =
        (({"m1"} : Finset String).erase "m1", none)) ∧
    ("m1" ∉ (∅ : Finset String) ∧
      handleIncoming ∅ sampleMsg = (∅, some sampleMsg)) ∧
    transcriptCount {"m1"} [sampleMsg] "m1" = 1 := by
  obtain ⟨h1, h2, h3⟩ := dedup_echo_exactly_once
  exact ⟨⟨by decide, h1 {"m1"} sampleMsg (by decide)⟩,
    ⟨by decide, h2 ∅ sampleMsg (by decide)⟩,
    h3 {"m1"} [sampleMsg] "m1" (by decide) (by decide)⟩

theorem statusEvents_append (a b : List Event) :
    statusEvents (a ++ b) = statusEvents a ++ statusEvents b := by
  simp [statusEvents]

theorem statusEvents_msgEvs (l : List PollMsg) :
    statusEvents (l.map Event.msgEv) = [] := by
  simp [statusEvents]

theorem iter_wasConnected (st : LoopState) (resp : PollResp) :
    (pollLoopIter st resp).1.wasConnected = cycleOk st resp := by
  unfold pollLoopIter cycleOk
  cases hp : (poll st.lastID resp).2 <;> simp [hp]

theorem iter_firstConnect (st : LoopState) (resp : PollResp)
    (h : st.firstConnect = false) :
    (pollLoopIter st resp).1.firstConnect = false := by
  unfold pollLoopIter
  cases hp : (poll st.lastID resp).2 <;> simp [hp, h]

/-- The counterexample to C5: starting from the initial loop state, two
consecutive failed poll cycles — the same connectivity outcome twice —
each fire an `onStatusChange(false, …)` callback, because `firstConnect`
stays true until the first successful cycle and the error branch notifies
unconditionally while it is true. -/
theorem status_fires_twice_before_first_success :
    cycleOk {} PollResp.transportErr = false ∧
    cycleOk (pollLoopIter {} PollResp.transportErr).1 PollResp.transportErr
      = false ∧
    statusEvents (runLoop {} [PollResp.transportErr, PollResp.transportErr]).2 =
      [Event.statusEv false, Event.statusEv false] :=
  ⟨by decide, by decide, by decide⟩

/-- C5 as amended: once some poll cycle has succeeded (`firstConnect`
is false), a status callback fires exactly on a connectivity edge —
`[statusEv outcome]` when the cycle's outcome differs from
`wasConnected`, nothing otherwise — and of two consecutive cycles with
the same outcome the second fires nothing. Before the first success,
every failed cycle fires a disconnected status and a first success fires
a connected status. -/
theorem status_edge_only_after_first_success :
    (∀ st resp, st.firstConnect = false →
        statusEvents (pollLoopIter st resp).2 =
          (if cycleOk st resp ≠ st.wasConnected
           then [Event.statusEv (cycleOk st resp)] else [])) ∧
    (∀ st r1 r2, st.firstConnect = false →
        cycleOk (pollLoopIter st r1).1 r2 = cycleOk st r1 →
        statusEvents (pollLoopIter (pollLoopIter st r1).1 r2).2 = []) ∧
    (∀ st resp, st.firstConnect = true → cycleOk st resp = false →
        statusEvents (pollLoopIter st resp).2 = [Event.statusEv false]) ∧
    (∀ st resp, st.firstConnect = true → cycleOk st resp = true →
        statusEvents (pollLoopIter st resp).2 = [Event.statusEv true]) := by
  have main : ∀ st resp, st.firstConnect = false →
      statusEvents (pollLoopIter st resp).2 =
        (if cycleOk st resp ≠ st.wasConnected
         then [Event.statusEv (cycleOk st resp)] else []) := by
    intro st resp h
    unfold pollLoopIter cycleOk
    cases hp : (poll st.lastID resp).2 with
    | error e =>
        simp only [hp, h, Bool.false_eq_true, if_false]
        rw [statusEvents_append]
        by_cases hw : st.wasConnected <;>
          simp [hw, statusEvents, List.filter_cons]
    | ok msgsOpt =>
        simp only [hp, h]
        rw [statusEvents_append, statusEvents_append]
        have hmsg : statusEvents
            ((handleBatch st.sentIDs (msgsOpt.getD [])).2.map Event.msgEv) = [] :=
          statusEvents_msgEvs _
        have hidle : statusEvents
            (if msgsOpt.isNone = true then [Event.idleWait] else []) = [] := by
          split <;> simp [statusEvents, List.filter_cons]
        rw [hmsg, hidle]
        by_cases hw : st.wasConnected <;>
          simp [hw, statusEvents, List.filter_cons]
  refine ⟨main, ?_, ?_, ?_⟩
  · intro st r1 r2 h hsame
    rw [main _ r2 (iter_firstConnect st r1 h)]
    rw [iter_wasConnected, hsame]
    simp
  · intro st resp h hc
    unfold cycleOk at hc
    unfold pollLoopIter
    cases hp : (poll st.lastID resp).2 with
    | error e =>
        simp only [hp]
        rw [statusEvents_append]
        simp [h, statusEvents, List.filter_cons]
    | ok v => rw [hp] at hc; simp at hc
  · intro st resp h hc
    unfold cycleOk at hc
    unfold pollLoopIter
    cases hp : (poll st.lastID resp).2 with
    | error e => rw [hp] at hc; simp at hc
    | ok msgsOpt =>
        simp only [hp]
        rw [statusEvents_append, statusEvents_append]
        have hmsg : statusEvents
            ((handleBatch st.sentIDs (msgsOpt.getD [])).2.map Event.msgEv) = [] :=
          statusEvents_msgEvs _
        have hidle : statusEvents
            (if msgsOpt.isNone = true then [Event.idleWait] else []) = [] := by
          split <;> simp [statusEvents, List.filter_cons]
        rw [hmsg, hidle]
        simp [h, statusEvents, List.filter_cons]

/-- Witness for the amended C5: after a first success, a 204 cycle from a
disconnected state fires the connected edge, and of two consecutive
failures the second fires nothing. -/
theorem status_edge_only_witness :
    (({ firstConnect := false } : LoopState).firstConnect = false ∧
      statusEvents (pollLoopIter { firstConnect := false } PollResp.noContent).2 =
        (if cycleOk { firstConnect := false } PollResp.noContent ≠
            ({ firstConnect := false } : LoopState).wasConnected
         then [Event.statusEv
                (cycleOk { firstConnect := false } PollResp.noContent)]
         else [])) ∧
    statusEvents
      (pollLoopIter (pollLoopIter { firstConnect := false }
        PollResp.transportErr).1 PollResp.transportErr).2 = [] := by
  obtain ⟨main, hsame, -, -⟩ := status_edge_only_after_first_success
  exact ⟨⟨rfl, main { firstConnect := false } PollResp.noContent rfl⟩,
    hsame { firstConnect := false } PollResp.transportErr PollResp.transportErr
      rfl (by decide)⟩

/-- The counterexample to C6: `Stop()` is called while the poll request
is in flight (`stoppedDuringPoll = true`); the iteration nevertheless
completes and invokes `onStatusChange(true, …)` and
`onMessage("alice","hi","[green]")` — the source has no check of the
`stopped` flag between `nc.poll()` returning and the dispatch loop, and
neither `handleIncoming` nor `notifyStatus` consults it. -/
theorem callback_after_stop_counterexample :
    iterWithStop false true {} (PollResp.okBody (some [sampleGood])) =
      some ({ lastID := "m1", sentIDs := ∅, backoff := 1,
              firstConnect := false, wasConnected := true },
            [Event.statusEv true, Event.msgEv sampleMsg]) ∧
    Event.msgEv sampleMsg ∈
      eventsOf (iterWithStop false true {} (PollResp.okBody (some [sampleGood]))) :=
  ⟨by decide, by decide⟩

/-- C6 as amended: once the `stopped` flag is observed by the
top-of-iteration check, the loop exits and fires no callback at all; but
an iteration already past that check when `Stop()` runs completes
unaffected — it behaves exactly like an unstopped iteration, so its
`onMessage`/`onStatusChange` callbacks can still fire after `stop()`. -/
theorem stop_observed_at_check_halts :
    (∀ (duringPoll : Bool) (st : LoopState) (resp : PollResp),
        iterWithStop true duringPoll st resp = none ∧
        eventsOf (iterWithStop true duringPoll st resp) = []) ∧
    (∀ (duringPoll : Bool) (st : LoopState) (resp : PollResp),
        iterWithStop false duringPoll st resp = some (pollLoopIter st resp)) :=
  ⟨fun _ _ _ => ⟨rfl, rfl⟩, fun _ _ _ => rfl⟩

theorem lookupSlot_cons (kv : Nat × String) (rest : List (Nat × String))
    (k : Nat) :
    lookupSlot (kv :: rest) k =
      if kv.1 = k then some kv.2 else lookupSlot rest k := by
  by_cases h : kv.1 = k
  · rw [if_pos h]
    unfold lookupSlot
    rw [List.find?_cons_of_pos _ (by simp [h])]
  · rw [if_neg h]
    unfold lookupSlot
    rw [List.find?_cons_of_neg _ (by simp [h])]

theorem lookupSlot_eq_some_iff (m : List (Nat × String)) (k : Nat) (v : String)
    (hnd : (m.map Prod.fst).Nodup) :
    lookupSlot m k = some v ↔ (k, v) ∈ m := by
  induction m with
  | nil =>
      constructor
      · intro h
        exact Option.noConfusion h
      · intro h
        simp at h
  | cons kv rest ih =>
      obtain ⟨a, b⟩ := kv
      rw [List.map_cons, List.nodup_cons] at hnd
      obtain ⟨hk, hrest⟩ := hnd
      rw [lookupSlot_cons, List.mem_cons]
      dsimp only at hk ⊢
      by_cases h : a = k
      · subst h
        rw [if_pos rfl]
        constructor
        · intro h2
          injection h2 with h2
          subst h2
          exact Or.inl rfl
        · rintro (h1 | h1)
          · rw [Prod.mk.injEq] at h1
            rw [h1.2]
          · exact absurd (List.mem_map_of_mem Prod.fst h1) hk
      · rw [if_neg h]
        rw [ih hrest]
        constructor
        · exact Or.inr
        · rintro (h1 | h1)
          · rw [Prod.mk.injEq] at h1
            exact absurd h1.1.symm h
          · exact h1

theorem picked_map_snd (s : ChatState) :
    (picked s).map Prod.snd =
      (List.range s.nextAnimID).filterMap (lookupSlot s.inFlight) := by
  unfold picked
  rw [List.map_filterMap]
  congr 1
  funext i
  cases lookupSlot s.inFlight i <;> rfl

theorem filterMap_pair_fst (m : List (Nat × String)) (l : List Nat) :
    (l.filterMap (fun i => (lookupSlot m i).map (fun v => (i, v)))).map
        Prod.fst =
      l.filter (fun i => (lookupSlot m i).isSome) := by
  induction l with
  | nil => rfl
  | cons i rest ih =>
      rw [List.filterMap_cons, List.filter_cons]
      cases h : lookupSlot m i with
      | none => simp [h, ih]
      | some v => simp [h, ih]

theorem picked_fst_sorted (s : ChatState) :
    ((picked s).map Prod.fst).Sorted (· < ·) := by
  unfold picked
  rw [filterMap_pair_fst]
  exact (List.pairwise_lt_range _).sublist (List.filter_sublist _)

theorem picked_nodup (s : ChatState) : (picked s).Nodup :=
  List.Nodup.of_map Prod.fst (picked_fst_sorted s).nodup

theorem picked_perm (s : ChatState) (hinv : slotInv s) :
    (picked s).Perm s.inFlight := by
  obtain ⟨hnd, hbound⟩ := hinv
  refine (List.perm_ext_iff_of_nodup (picked_nodup s)
    (List.Nodup.of_map Prod.fst hnd)).mpr ?_
  rintro ⟨k, v⟩
  unfold picked
  rw [List.mem_filterMap]
  constructor
  · rintro ⟨i, hi, hmap⟩
    cases h : lookupSlot s.inFlight i with
    | none => rw [h] at hmap; simp at hmap
    | some w =>
        rw [h] at hmap
        have hmap' : (i, w) = (k, v) := by simpa using hmap
        rw [Prod.mk.injEq] at hmap'
        obtain ⟨rfl, rfl⟩ := hmap'
        exact (lookupSlot_eq_some_iff _ _ _ hnd).mp h
  · intro hmem
    refine ⟨k, ?_, ?_⟩
    · rw [List.mem_range]
      exact hbound k (List.mem_map_of_mem Prod.fst hmem)
    · rw [(lookupSlot_eq_some_iff _ _ _ hnd).mpr hmem]
      rfl

theorem find_key_isSome (m : List (Nat × String)) (k : Nat) :
    (m.find? (fun kv => kv.1 == k)).isSome = true ↔ k ∈ m.map Prod.fst := by
  rw [List.find?_isSome]
  constructor
  · rintro ⟨kv, hmem, hp⟩
    have hk : kv.1 = k := by simpa using hp
    rw [← hk]
    exact List.mem_map_of_mem Prod.fst hmem
  · intro h
    rw [List.mem_map] at h
    obtain ⟨kv, hmem, hk⟩ := h
    exact ⟨kv, hmem, by simp [hk]⟩

theorem insertSlot_keys_mem (m : List (Nat × String)) (k : Nat) (v : String)
    (h : k ∈ m.map Prod.fst) :
    (insertSlot m k v).map Prod.fst = m.map Prod.fst := by
  unfold insertSlot
  rw [if_pos ((find_key_isSome m k).mpr h)]
  rw [List.map_map]
  congr 1
  funext kv
  by_cases hk : kv.1 = k
  · simp [Function.comp, hk]
  · simp [Function.comp, hk]

theorem insertSlot_keys_new (m : List (Nat × String)) (k : Nat) (v : String)
    (h : k ∉ m.map Prod.fst) :
    (insertSlot m k v).map Prod.fst = m.map Prod.fst ++ [k] := by
  unfold insertSlot
  rw [if_neg (fun hc => h ((find_key_isSome m k).mp hc))]
  rw [List.map_append]
  rfl

theorem eraseSlot_keys_sublist (m : List (Nat × String)) (k : Nat) :
    ((eraseSlot m k).map Prod.fst).Sublist (m.map Prod.fst) :=
  (List.filter_sublist m).map Prod.fst

theorem appended_key_inv (keys : List Nat) (k : Nat)
    (hnd : keys.Nodup) (hk : k ∉ keys) : (keys ++ [k]).Nodup := by
  rw [List.nodup_append]
  refine ⟨hnd, List.nodup_singleton _, ?_⟩
  intro x hx hxk
  rw [List.mem_singleton] at hxk
  subst hxk
  exact hk hx

theorem applyOp_slotInv (s : ChatState) (op : ViewOp) (hinv : slotInv s)
    (hop : opOk s op) : slotInv (applyOp s op) := by
  obtain ⟨hnd, hbound⟩ := hinv
  cases op with
  | addMsg m => exact ⟨hnd, hbound⟩
  | staticOp stp pre c =>
      simp only [applyOp]
      unfold staticDraw
      split
      · exact ⟨hnd, hbound⟩
      · exact ⟨hnd, hbound⟩
  | allocOp stp pre =>
      simp only [applyOp]
      unfold animInit
      split
      · exact ⟨hnd, hbound⟩
      · dsimp only
        have hnew : s.nextAnimID ∉ s.inFlight.map Prod.fst :=
          fun hmem => absurd (hbound _ hmem) (lt_irrefl _)
        constructor
        · rw [insertSlot_keys_new _ _ _ hnew]
          exact appended_key_inv _ _ hnd hnew
        · intro k hk
          rw [insertSlot_keys_new _ _ _ hnew] at hk
          rw [List.mem_append, List.mem_singleton] at hk
          rcases hk with hk | rfl
          · exact Nat.lt_succ_of_lt (hbound _ hk)
          · exact Nat.lt_succ_self _
  | tickOp stp a g pre sn l =>
      have ha : a < s.nextAnimID := hop
      simp only [applyOp]
      unfold wordTick
      split
      · exact ⟨hnd, hbound⟩
      · split
        · exact ⟨hnd, hbound⟩
        · dsimp only
          split
          · refine ⟨List.Nodup.sublist (eraseSlot_keys_sublist _ _) hnd, ?_⟩
            intro k hk
            exact hbound k ((eraseSlot_keys_sublist _ _).subset hk)
          · by_cases hmem : a ∈ s.inFlight.map Prod.fst
            · constructor
              · rw [insertSlot_keys_mem _ _ _ hmem]; exact hnd
              · intro k hk
                rw [insertSlot_keys_mem _ _ _ hmem] at hk
                exact hbound k hk
            · constructor
              · rw [insertSlot_keys_new _ _ _ hmem]
                exact appended_key_inv _ _ hnd hmem
              · intro k hk
                rw [insertSlot_keys_new _ _ _ hmem] at hk
                rw [List.mem_append, List.mem_singleton] at hk
                rcases hk with hk | rfl
                · exact hbound k hk
                · exact ha
  | clearOp =>
      refine ⟨List.nodup_nil, ?_⟩
      intro k hk
      simp [applyOp, ClearMessages] at hk
  | setOp stp msgs =>
      simp only [applyOp]
      unfold SetMessages
      split
      · exact ⟨hnd, hbound⟩
      · refine ⟨List.nodup_nil, ?_⟩
        intro k hk
        simp at hk

/-- C4: under the slot-map invariant (distinct keys, all below the
allocation counter) — which every update task preserves — the rendered
text equals the committed buffer concatenated with the partial text of
every live in-flight slot, taken in ascending slot-id order: the slots
`renderMessages` picks up have strictly increasing ids and are exactly
the slot map's entries (a permutation of it). -/
theorem visible_equals_committed_plus_slots :
    (∀ s : ChatState, slotInv s →
        renderMessages s =
          s.committedText ++ String.join ((picked s).map Prod.snd) ∧
        ((picked s).map Prod.fst).Sorted (· < ·) ∧
        (picked s).Perm s.inFlight) ∧
    (∀ (s : ChatState) (op : ViewOp), slotInv s → opOk s op →
        slotInv (applyOp s op)) := by
  constructor
  · intro s hinv
    refine ⟨?_, picked_fst_sorted s, picked_perm s hinv⟩
    unfold renderMessages
    rw [picked_map_snd]
  · exact applyOp_slotInv

/-- Witness for C4 on `demoState` (slots stored out of key order): the
invariant holds, the rendered text decomposes as committed text plus the
slots in ascending id order, and a final word tick preserves the
invariant. -/
theorem visible_equals_committed_plus_slots_witness :
    (slotInv demoState ∧
      renderMessages demoState =
        demoState.committedText ++ String.join ((picked demoState).map Prod.snd) ∧
      (picked demoState).Perm demoState.inFlight) ∧
    (opOk demoState (ViewOp.tickOp false 1 0 "p" "w" true) ∧
      slotInv (applyOp demoState (ViewOp.tickOp false 1 0 "p" "w" true))) := by
  obtain ⟨hcomp, hpres⟩ := visible_equals_committed_plus_slots
  have hinv : slotInv demoState := ⟨by decide, by decide⟩
  have hop : opOk demoState (ViewOp.tickOp false 1 0 "p" "w" true) := by
    unfold opOk demoState
    decide
  obtain ⟨h1, -, h3⟩ := hcomp demoState hinv
  exact ⟨⟨hinv, h1, h3⟩, hop, hpres demoState _ hinv hop⟩

end CliMessanger
